import Mathlib

/-!
Verification of the realtime streaming module (`src/realtime/mod.rs`).

The module is a websocket client: `Streamer::run` first snapshots the
subscription registry (a `std::collections::HashMap` behind an `RwLock`),
sends one JSON subscription frame, then loops over inbound messages,
base64-decoding and protobuf-parsing each one and dispatching a freshly
built `Quote` to the callback registered for the update's symbol.

Shallow embedding choices, traced to the source:
* The registry `HashMap<&str, Box<dyn Fn(Quote)>>` is embedded as an
  association list `Registry := List (Sym × CbId)`; closures are opaque at
  the ABI level, so a callback is represented by an identifier `CbId` and
  an invocation is recorded as a `(CbId × Quote)` event in a trace.
  The list keeps insertion order so that claims about ordering can be
  *stated*; lookup/insert semantics mirror `HashMap::get` /
  `contains_key` + `insert`.
* `HashMap::iter` yields each entry exactly once in an arbitrary,
  unspecified order (randomized hashing).  The snapshot loop in `run`
  (lines 42-46) is therefore embedded nondeterministically: `run` takes
  the iteration order as a parameter `ord`, constrained by `IterOrder`
  to be a permutation of the key list.
* base64 (`base64::decode`) and protobuf (`parse_from_bytes::<PricingData>`)
  are external crates; the spec treats the decode step as an opaque
  collaborator contract, so `run` is parametrized by a `Codec` of two
  fallible functions.  A `.unwrap()` on a failing decode is a Rust panic,
  embedded as the distinguished outcome `RunResult.panicked`, distinct
  from `run`'s returned `Ok`/`Err` values.
* The receive loop `while let Some(msg) = self.stream.next().await` is
  embedded as structural recursion over a list of `Event`s: an inbound
  frame (`Some(Ok(msg))`), a transport error (`Some(Err(e))`), or a
  concurrent `Streamer::subscribe` call interleaved at the await point
  (the `RwLock` is never held across an await, so the loop observes
  registry writes only between iterations).  End of the list is stream
  end (`None`).
-/

namespace YahooRt

/-- Raw payload bytes of a frame (`Message::into_data`). -/
abbrev Bytes := List Nat

/-- A symbol (`&'a str` key of the subscription map). -/
abbrev Sym := String

/-- Opaque identity of a registered callback closure (`Box<dyn Fn(Quote)>`). -/
abbrev CbId := Nat

/-- Modelled from the spec: `src/realtime/data.rs` (the protobuf-generated
`PricingData` record) is not under `src/`.  The spec fixes its fields:
`id: string`, `quoteType: integer code`, `time: integer epoch seconds`,
`marketHours: integer code`, `price: float`, `dayVolume: integer` (§4.3,
§6).  The run loop only copies `price` verbatim into the `Quote`, so the
f64 payload is carried as its 64-bit pattern (a `Nat`). -/
structure PricingData where
  id : String
  quoteType : Int
  time : Int
  marketHours : Int
  price : Nat
  dayVolume : Int
deriving DecidableEq, Repr

/-- Modelled from the spec: `src/realtime/quote.rs` is not under `src/`.
The spec calls `QuoteType::from_pd` a trivial value mapping from the raw
integer code (§1, §4.4), so the enumeration is embedded as a wrapper on
the code and `from_pd` as the injection. -/
inductive QuoteType where
  | from_pd : Int → QuoteType
deriving DecidableEq, Repr

/-- Modelled from the spec: `src/realtime/quote.rs` is not under `src/`.
As for `QuoteType`, `TradingSession::from_pd` is a trivial value mapping
from the raw `marketHours` code, embedded as the injection. -/
inductive TradingSession where
  | from_pd : Int → TradingSession
deriving DecidableEq, Repr

/-- `chrono::DateTime<Utc>` as built in the run loop: an epoch-seconds
value with a nanosecond part (`NaiveDateTime::from_timestamp(secs, nsecs)`
tagged `Utc`). -/
structure DateTimeUtc where
  secs : Int
  nsecs : Nat
deriving DecidableEq, Repr

/-- `DateTime::from_utc(NaiveDateTime::from_timestamp(t, 0), Utc)`. -/
def fromTimestampUtc (t : Int) : DateTimeUtc :=
  ⟨t, 0⟩

/-- The caller-facing quote (`pub struct Quote` of `quote.rs`, fields as
constructed at lines 59-66 of `mod.rs` and listed in spec §3). -/
structure Quote where
  symbol : String
  quote_type : QuoteType
  timestamp : DateTimeUtc
  session : TradingSession
  price : Nat
  volume : Int
deriving DecidableEq, Repr

/-- The `Quote` literal built in the run loop (lines 59-66). -/
def mkQuote (x : PricingData) : Quote :=
  ⟨x.id, QuoteType.from_pd x.quoteType, fromTimestampUtc x.time,
   TradingSession.from_pd x.marketHours, x.price, x.dayVolume⟩

/-- The subscription registry: `HashMap<&'a str, Box<dyn Fn(Quote)>>`
embedded as an association list in insertion order (each key occurs at
most once along every reachable state). -/
abbrev Registry := List (Sym × CbId)

/-- The key list of the registry, in insertion order. -/
def keys (m : Registry) : List Sym :=
  m.map Prod.fst

/-- `HashMap::contains_key`. -/
def containsKey (m : Registry) (s : Sym) : Bool :=
  decide (s ∈ keys m)

/-- `HashMap::get` (line 58): the callback registered for `s`, if any. -/
def lookupReg : Registry → Sym → Option CbId
  | [], _ => none
  | p :: rest, s => if p.1 = s then some p.2 else lookupReg rest s

/-- `#[derive(Serialize)] struct Subs<'a> { subscribe: Vec<&'a str> }`
(line 17). -/
structure Subs where
  subscribe : List Sym
deriving DecidableEq, Repr

/-- One hex digit as emitted by serde_json (lowercase). -/
def hexDigit (n : Nat) : Char :=
  if n < 10 then Char.ofNat (48 + n) else Char.ofNat (87 + n)

/-- Modelled from the spec: serde_json is an external crate.  Its string
escaping: `"` and `\` escaped, the five short control escapes, other
control characters as `\u00XX` with lowercase hex, everything else
verbatim. -/
def jsonEscapeChar (c : Char) : String :=
  if c = '\x22' then "\\\""
  else if c = '\\' then "\\\\"
  else if c = '\x08' then "\\b"
  else if c = '\x09' then "\\t"
  else if c = '\x0a' then "\\n"
  else if c = '\x0c' then "\\f"
  else if c = '\x0d' then "\\r"
  else if c.toNat < 32 then
    "\\u00" ++ String.mk [hexDigit (c.toNat / 16), hexDigit (c.toNat % 16)]
  else String.mk [c]

/-- serde_json serialization of a string value. -/
def jsonString (s : String) : String :=
  "\"" ++ String.join (s.data.map jsonEscapeChar) ++ "\""

/-- serde_json serialization of an array of strings. -/
def jsonStringArray (xs : List String) : String :=
  "[" ++ String.intercalate "," (xs.map jsonString) ++ "]"

/-- `serde_json::to_string(&Subs { subscribe: v })` (line 49): a JSON
object with the single key `subscribe` mapped to the array of symbols. -/
def serializeSubs (s : Subs) : String :=
  "\x7b\"subscribe\":" ++ jsonStringArray s.subscribe ++ "\x7d"

/-- Decoder externals (spec §4.3): `base64::decode` and
`parse_from_bytes::<PricingData>`, each fallible.  `run` is parametrized
by them. -/
structure Codec where
  decodeB64 : Bytes → Option Bytes
  parsePD : Bytes → Option PricingData

/-- The decode step of one loop iteration (line 55), before the
`.unwrap()`s: base64-decode the frame body, then parse the bytes. -/
def decodeFrame (codec : Codec) (d : Bytes) : Option PricingData :=
  match codec.decodeB64 d with
  | none => none
  | some bytes => codec.parsePD bytes

/-- One observable step at the loop's await point: the next inbound
message arrives intact (`Some(Ok(msg))`), the transport fails
(`Some(Err(e))`, the error named by a `Nat`), or a concurrent
`Streamer::subscribe` call commits between iterations. -/
inductive Event where
  | recvFrame : Bytes → Event
  | recvErr : Nat → Event
  | sub : List Sym → CbId → Event
deriving DecidableEq, Repr

/-- How `run` ends: `Ok(())`, `Err(e)` via the `?` operators, or a Rust
panic from an `.unwrap()` on a failed decode/parse (line 55) — a panic
unwinds, it is not a returned `Result` value. -/
inductive RunResult where
  | ok : RunResult
  | err : Nat → RunResult
  | panicked : RunResult
deriving DecidableEq, Repr

/-- Whether a `RunResult` is a returned error value. -/
def RunResult.isErr : RunResult → Bool
  | .err _ => true
  | _ => false

namespace Streamer

/-- `Streamer::subscribe` (lines 75-83): for each symbol in order, insert
the callback only if the key is absent (`if !map.contains_key(symbol)
{ map.insert(symbol, Box::new(callback)); }`). -/
def subscribe (m : Registry) (symbols : List Sym) (callback : CbId) : Registry :=
  symbols.foldl (fun acc s => if containsKey acc s then acc else acc ++ [(s, callback)]) m

/-- The `while let Some(msg) = self.stream.next().await` loop
(lines 53-69), returning the invocation trace and how the loop ended.
`recvErr` is `msg?` returning early; a frame that fails to decode or
parse hits `.unwrap()` and panics; a decoded frame is looked up in the
registry and dispatched if registered, silently dropped otherwise; a
`sub` step updates the registry the next iterations read. -/
def runLoop (codec : Codec) : Registry → List Event → List (CbId × Quote) × RunResult
  | _, [] => ([], RunResult.ok)
  | reg, Event.sub syms cb :: rest => runLoop codec (subscribe reg syms cb) rest
  | _, Event.recvErr e :: _ => ([], RunResult.err e)
  | reg, Event.recvFrame d :: rest =>
    match decodeFrame codec d with
    | none => ([], RunResult.panicked)
    | some x =>
      let t := runLoop codec reg rest
      match lookupReg reg x.id with
      | some cb => ((cb, mkQuote x) :: t.1, t.2)
      | none => t

/-- What a call to `Streamer::run` did: the text frames it delivered
upstream, the callback invocations in order, and its outcome. -/
structure RunOutput where
  sent : List String
  trace : List (CbId × Quote)
  result : RunResult
deriving DecidableEq, Repr

/-- The arbitrary order in which `map.iter()` (line 45) yields the keys:
`std::collections::HashMap` iteration visits each entry exactly once in
an unspecified order, so the embedding admits every permutation of the
key list. -/
def IterOrder (m : Registry) (ord : List Sym) : Prop :=
  ord.Perm (keys m)

instance (m : Registry) (ord : List Sym) : Decidable (IterOrder m ord) :=
  inferInstanceAs (Decidable (ord.Perm (keys m)))

/-- `Streamer::run` (lines 40-72): snapshot the registry keys in the
hash map's iteration order `ord`, send the one subscription frame
(`self.stream.send(Message::Text(serde_json::to_string(&Subs {
subscribe: v }).unwrap())).await?`, line 49 — `sendErr = some e` is that
send failing, in which case no frame is delivered and `run` returns the
error), then enter the receive loop. -/
def run (codec : Codec) (sendErr : Option Nat) (reg0 : Registry) (ord : List Sym)
    (events : List Event) : RunOutput :=
  match sendErr with
  | some e => ⟨[], [], RunResult.err e⟩
  | none =>
    let t := runLoop codec reg0 events
    ⟨[serializeSubs ⟨ord⟩], t.1, t.2⟩

end Streamer

/-- A loop step that neither errors nor panics: a frame that decodes, or
a concurrent subscribe. -/
def goodEvent (codec : Codec) : Event → Bool
  | Event.recvFrame d => (decodeFrame codec d).isSome
  | Event.recvErr _ => false
  | Event.sub _ _ => true

/-- A step that is not a concurrent subscribe. -/
def noSub : Event → Bool
  | Event.sub _ _ => false
  | _ => true

/-- The dispatch the spec describes for a fixed registry: one invocation
of the registered callback per decodable frame whose id is registered,
in arrival order; unregistered ids produce nothing. -/
def dispatchOf (codec : Codec) (reg : Registry) (events : List Event) :
    List (CbId × Quote) :=
  events.filterMap (fun ev =>
    match ev with
    | Event.recvFrame d =>
      match decodeFrame codec d with
      | some x =>
        match lookupReg reg x.id with
        | some cb => some (cb, mkQuote x)
        | none => none
      | none => none
    | _ => none)

/-- A sequence of `subscribe` calls applied in order. -/
def applySubs (ops : List (List Sym × CbId)) (m : Registry) : Registry :=
  ops.foldl (fun acc op => Streamer.subscribe acc op.1 op.2) m

/-- Registry evolution seen across a run: only the interleaved
`subscribe` steps write it; receive steps and dispatch only read it
(lines 53-69 never mutate the map). -/
def regDuring (reg : Registry) (events : List Event) : Registry :=
  events.foldl (fun acc ev =>
    match ev with
    | Event.sub syms cb => Streamer.subscribe acc syms cb
    | _ => acc) reg

/-- Concrete records for witnesses: three symbols. -/
def pdA : PricingData :=
  ⟨"A", 8, 1700000000, 1, 4611911198408756429, 1000⟩

def pdC : PricingData :=
  ⟨"C", 8, 1700000001, 1, 4611911198408756430, 2000⟩

def pdB : PricingData :=
  ⟨"B", 8, 1700000002, 2, 4611911198408756431, 3000⟩

/-- A concrete codec for witnesses: base64 succeeds verbatim, the parser
recognises three byte strings and rejects the rest. -/
def codecW : Codec :=
  ⟨fun d => some d,
   fun bytes =>
     match bytes with
     | [0] => some pdA
     | [1] => some pdC
     | [2] => some pdB
     | _ => none⟩

/-- A two-entry registry: "A" inserted first, then "B". -/
def regAB : Registry :=
  [("A", 0), ("B", 1)]

/-! ### Registry lemmas -/

theorem containsKey_iff (m : Registry) (s : Sym) : containsKey m s = true ↔ s ∈ keys m := by
  simp [containsKey]

theorem keys_append (m l : Registry) : keys (m ++ l) = keys m ++ keys l :=
  List.map_append _ _ _

theorem subscribe_cons (m : Registry) (a : Sym) (rest : List Sym) (cb : CbId) :
    Streamer.subscribe m (a :: rest) cb
      = Streamer.subscribe (if containsKey m a then m else m ++ [(a, cb)]) rest cb :=
  rfl

theorem lookupReg_append (m l : Registry) (s : Sym) (h : s ∈ keys m) :
    lookupReg (m ++ l) s = lookupReg m s := by
  induction m with
  | nil => simp [keys] at h
  | cons p rest ih =>
    by_cases hp : p.1 = s
    · simp [lookupReg, hp]
    · have hmem : s ∈ keys rest := by
        simp [keys] at h
        rcases h with h1 | h2
        · exact absurd h1.symm hp
        · simpa [keys] using h2
      simp only [List.cons_append, lookupReg, if_neg hp]
      exact ih hmem

theorem mem_keys_subscribe (syms : List Sym) : ∀ (m : Registry) (cb : CbId) (u : Sym),
    u ∈ keys (Streamer.subscribe m syms cb) ↔ u ∈ keys m ∨ u ∈ syms := by
  induction syms with
  | nil => intro m cb u; simp [Streamer.subscribe]
  | cons a rest ih =>
    intro m cb u
    rw [subscribe_cons]
    by_cases h : containsKey m a = true
    · have ha : a ∈ keys m := (containsKey_iff m a).mp h
      rw [if_pos h, ih]
      constructor
      · rintro (h1 | h2)
        · exact Or.inl h1
        · exact Or.inr (List.mem_cons_of_mem a h2)
      · rintro (h1 | h2)
        · exact Or.inl h1
        · rcases List.mem_cons.mp h2 with rfl | h3
          · exact Or.inl ha
          · exact Or.inr h3
    · rw [if_neg h, ih, keys_append]
      simp [keys, List.mem_cons, or_assoc]

theorem lookupReg_subscribe (syms : List Sym) : ∀ (m : Registry) (cb : CbId) (s : Sym),
    s ∈ keys m → lookupReg (Streamer.subscribe m syms cb) s = lookupReg m s := by
  induction syms with
  | nil => intro m cb s _; rfl
  | cons a rest ih =>
    intro m cb s hs
    rw [subscribe_cons]
    by_cases h : containsKey m a = true
    · rw [if_pos h]
      exact ih m cb s hs
    · rw [if_neg h]
      have h1 : s ∈ keys (m ++ [(a, cb)]) := by
        rw [keys_append]
        exact List.mem_append_left _ hs
      rw [ih (m ++ [(a, cb)]) cb s h1, lookupReg_append m [(a, cb)] s hs]

theorem subscribe_of_mem (syms : List Sym) : ∀ (m : Registry) (cb : CbId),
    (∀ v ∈ syms, v ∈ keys m) → Streamer.subscribe m syms cb = m := by
  induction syms with
  | nil => intro m cb _; rfl
  | cons a rest ih =>
    intro m cb h
    rw [subscribe_cons]
    have ha : containsKey m a = true :=
      (containsKey_iff m a).mpr (h a (List.mem_cons_self a rest))
    rw [if_pos ha]
    exact ih m cb (fun v hv => h v (List.mem_cons_of_mem a hv))

theorem nodup_keys_subscribe (syms : List Sym) : ∀ (m : Registry) (cb : CbId),
    (keys m).Nodup → (keys (Streamer.subscribe m syms cb)).Nodup := by
  induction syms with
  | nil => intro m cb h; exact h
  | cons a rest ih =>
    intro m cb h
    rw [subscribe_cons]
    by_cases ha : containsKey m a = true
    · rw [if_pos ha]
      exact ih m cb h
    · rw [if_neg ha]
      apply ih
      have hna : a ∉ keys m := fun hm => ha ((containsKey_iff m a).mpr hm)
      rw [keys_append]
      have hk : keys [(a, cb)] = [a] := rfl
      rw [hk]
      refine List.Nodup.append h (List.nodup_singleton a) ?_
      intro x hx hx2
      rcases List.mem_singleton.mp hx2 with rfl
      exact hna hx

theorem mem_keys_applySubs (ops : List (List Sym × CbId)) : ∀ (m : Registry) (s : Sym),
    s ∈ keys m → s ∈ keys (applySubs ops m) := by
  induction ops with
  | nil => intro m s h; exact h
  | cons op rest ih =>
    intro m s h
    exact ih _ s ((mem_keys_subscribe op.1 m op.2 s).mpr (Or.inl h))

theorem nodup_keys_applySubs (ops : List (List Sym × CbId)) : ∀ (m : Registry),
    (keys m).Nodup → (keys (applySubs ops m)).Nodup := by
  induction ops with
  | nil => intro m h; exact h
  | cons op rest ih =>
    intro m h
    exact ih _ (nodup_keys_subscribe op.1 m op.2 h)

theorem mem_keys_regDuring (events : List Event) : ∀ (m : Registry) (s : Sym),
    s ∈ keys m → s ∈ keys (regDuring m events) := by
  induction events with
  | nil => intro m s h; exact h
  | cons ev rest ih =>
    intro m s h
    cases ev with
    | sub syms cb => exact ih _ s ((mem_keys_subscribe syms m cb s).mpr (Or.inl h))
    | recvErr e => exact ih m s h
    | recvFrame d => exact ih m s h

/-! ### Run-loop lemmas -/

theorem runLoop_good_ok (codec : Codec) (events : List Event) : ∀ (reg : Registry),
    (∀ ev ∈ events, goodEvent codec ev = true) →
    (Streamer.runLoop codec reg events).2 = RunResult.ok := by
  induction events with
  | nil => intro reg _; rfl
  | cons ev rest ih =>
    intro reg h
    have hhead := h ev (List.mem_cons_self ev rest)
    have htail : ∀ e2 ∈ rest, goodEvent codec e2 = true :=
      fun e2 he2 => h e2 (List.mem_cons_of_mem ev he2)
    cases ev with
    | sub syms cb =>
      simp only [Streamer.runLoop]
      exact ih _ htail
    | recvErr e => simp [goodEvent] at hhead
    | recvFrame d =>
      rcases Option.isSome_iff_exists.mp (by simpa [goodEvent] using hhead) with ⟨x, hx⟩
      cases hl : lookupReg reg x.id with
      | some cb =>
        simp only [Streamer.runLoop, hx, hl]
        exact ih reg htail
      | none =>
        simp only [Streamer.runLoop, hx, hl]
        exact ih reg htail

theorem runLoop_dispatch (codec : Codec) (events : List Event) : ∀ (reg : Registry),
    (∀ ev ∈ events, goodEvent codec ev = true ∧ noSub ev = true) →
    (Streamer.runLoop codec reg events).1 = dispatchOf codec reg events := by
  induction events with
  | nil => intro reg _; rfl
  | cons ev rest ih =>
    intro reg h
    have hhead := h ev (List.mem_cons_self ev rest)
    have htail : ∀ e2 ∈ rest, goodEvent codec e2 = true ∧ noSub e2 = true :=
      fun e2 he2 => h e2 (List.mem_cons_of_mem ev he2)
    cases ev with
    | sub syms cb => simp [noSub] at hhead
    | recvErr e => simp [goodEvent] at hhead
    | recvFrame d =>
      rcases Option.isSome_iff_exists.mp (by simpa [goodEvent] using hhead.1) with ⟨x, hx⟩
      have ht := ih reg htail
      cases hl : lookupReg reg x.id with
      | some cb =>
        simp only [Streamer.runLoop, dispatchOf, List.filterMap, hx, hl] at ht ⊢
        rw [ht]
      | none =>
        simp only [Streamer.runLoop, dispatchOf, List.filterMap, hx, hl] at ht ⊢
        rw [ht]

theorem runLoop_recvErr (codec : Codec) (pre : List Event) :
    ∀ (reg : Registry) (e : Nat) (rest : List Event),
    (∀ ev ∈ pre, goodEvent codec ev = true) →
    (Streamer.runLoop codec reg (pre ++ Event.recvErr e :: rest)).2 = RunResult.err e := by
  induction pre with
  | nil => intro reg e rest _; simp [Streamer.runLoop]
  | cons ev rest2 ih =>
    intro reg e rest h
    have hhead := h ev (List.mem_cons_self ev rest2)
    have htail : ∀ e2 ∈ rest2, goodEvent codec e2 = true :=
      fun e2 he2 => h e2 (List.mem_cons_of_mem ev he2)
    cases ev with
    | sub syms cb =>
      simp only [List.cons_append, Streamer.runLoop]
      exact ih _ e rest htail
    | recvErr e2 => simp [goodEvent] at hhead
    | recvFrame d =>
      rcases Option.isSome_iff_exists.mp (by simpa [goodEvent] using hhead) with ⟨x, hx⟩
      cases hl : lookupReg reg x.id with
      | some cb =>
        simp only [List.cons_append, Streamer.runLoop, hx, hl]
        exact ih reg e rest htail
      | none =>
        simp only [List.cons_append, Streamer.runLoop, hx, hl]
        exact ih reg e rest htail

theorem runLoop_decode_none (codec : Codec) (pre : List Event) :
    ∀ (reg : Registry) (d : Bytes) (rest : List Event),
    (∀ ev ∈ pre, goodEvent codec ev = true) → decodeFrame codec d = none →
    (Streamer.runLoop codec reg (pre ++ Event.recvFrame d :: rest)).2 = RunResult.panicked := by
  induction pre with
  | nil => intro reg d rest _ hd; simp [Streamer.runLoop, hd]
  | cons ev rest2 ih =>
    intro reg d rest h hd
    have hhead := h ev (List.mem_cons_self ev rest2)
    have htail : ∀ e2 ∈ rest2, goodEvent codec e2 = true :=
      fun e2 he2 => h e2 (List.mem_cons_of_mem ev he2)
    cases ev with
    | sub syms cb =>
      simp only [List.cons_append, Streamer.runLoop]
      exact ih _ d rest htail hd
    | recvErr e2 => simp [goodEvent] at hhead
    | recvFrame d2 =>
      rcases Option.isSome_iff_exists.mp (by simpa [goodEvent] using hhead) with ⟨x, hx⟩
      cases hl : lookupReg reg x.id with
      | some cb =>
        simp only [List.cons_append, Streamer.runLoop, hx, hl]
        exact ih reg d rest htail hd
      | none =>
        simp only [List.cons_append, Streamer.runLoop, hx, hl]
        exact ih reg d rest htail hd

theorem runLoop_mem_trace (codec : Codec) (events : List Event) :
    ∀ (reg : Registry) (cb : CbId) (q : Quote),
    (cb, q) ∈ (Streamer.runLoop codec reg events).1 →
    ∃ x : PricingData,
      (∃ d, Event.recvFrame d ∈ events ∧ decodeFrame codec d = some x) ∧ q = mkQuote x := by
  induction events with
  | nil => intro reg cb q h; simp [Streamer.runLoop] at h
  | cons ev rest ih =>
    intro reg cb q h
    cases ev with
    | sub syms cb2 =>
      rcases ih (Streamer.subscribe reg syms cb2) cb q h with ⟨x, ⟨d, hd1, hd2⟩, hq⟩
      exact ⟨x, ⟨d, List.mem_cons_of_mem _ hd1, hd2⟩, hq⟩
    | recvErr e => simp [Streamer.runLoop] at h
    | recvFrame d =>
      cases hx : decodeFrame codec d with
      | none => simp [Streamer.runLoop, hx] at h
      | some x =>
        cases hl : lookupReg reg x.id with
        | some cb2 =>
          simp only [Streamer.runLoop, hx, hl, List.mem_cons] at h
          rcases h with heq | h2
          · have hq : q = mkQuote x := congrArg Prod.snd heq
            exact ⟨x, ⟨d, List.mem_cons_self _ _, hx⟩, hq⟩
          · rcases ih reg cb q h2 with ⟨x2, ⟨d2, hd1, hd2⟩, hq⟩
            exact ⟨x2, ⟨d2, List.mem_cons_of_mem _ hd1, hd2⟩, hq⟩
        | none =>
          simp only [Streamer.runLoop, hx, hl] at h
          rcases ih reg cb q h with ⟨x2, ⟨d2, hd1, hd2⟩, hq⟩
          exact ⟨x2, ⟨d2, List.mem_cons_of_mem _ hd1, hd2⟩, hq⟩

/-! ### Claims -/

/-- C1: dispatch correctness of the run loop.  For a stream of inbound
frames that all decode (and with no concurrent subscribe interleaved, so
the registry is fixed), the trace of callback invocations is exactly one
invocation of the registered callback per frame whose decoded id is a
registered symbol, in frame-arrival order; a frame whose id is not
registered contributes nothing to the trace. -/
theorem dispatch_correctness (codec : Codec) (reg : Registry) (events : List Event)
    (h : ∀ ev ∈ events, goodEvent codec ev = true ∧ noSub ev = true) :
    (Streamer.runLoop codec reg events).1 = dispatchOf codec reg events :=
  runLoop_dispatch codec events reg h

/-- C1 witness: registry with callbacks for "A" and "B"; inbound updates
for A, C, B ("C" unregistered) invoke exactly the A-callback then the
B-callback, and nothing for C. -/
theorem dispatch_correctness_witness :
    (Streamer.runLoop codecW regAB
        [Event.recvFrame [0], Event.recvFrame [1], Event.recvFrame [2]]).1
      = dispatchOf codecW regAB
          [Event.recvFrame [0], Event.recvFrame [1], Event.recvFrame [2]] ∧
    dispatchOf codecW regAB
        [Event.recvFrame [0], Event.recvFrame [1], Event.recvFrame [2]]
      = [(0, mkQuote pdA), (1, mkQuote pdB)] :=
  ⟨dispatch_correctness codecW regAB
      [Event.recvFrame [0], Event.recvFrame [1], Event.recvFrame [2]] (by decide),
   by decide⟩

/-- C2: duplicate-subscribe no-op.  If `s` is already registered, then any
subsequent subscribe that includes `s` (any callback) leaves `s`'s
registered callback unchanged; subscribing an already-present symbol alone
is the identity on the registry (size unchanged); repeating the same
(symbols, callback) subscribe leaves the registry unchanged; and the
resulting key set is exactly the old keys plus the new symbols (only
absent symbols are inserted). -/
theorem subscribe_duplicate_noop (m : Registry) (syms : List Sym) (cb cb2 : CbId)
    (s u : Sym) (hs : s ∈ keys m) :
    lookupReg (Streamer.subscribe m syms cb2) s = lookupReg m s ∧
    Streamer.subscribe m [s] cb2 = m ∧
    Streamer.subscribe (Streamer.subscribe m syms cb) syms cb = Streamer.subscribe m syms cb ∧
    (u ∈ keys (Streamer.subscribe m syms cb2) ↔ u ∈ keys m ∨ u ∈ syms) := by
  refine ⟨lookupReg_subscribe syms m cb2 s hs, ?_, ?_, mem_keys_subscribe syms m cb2 u⟩
  · apply subscribe_of_mem
    intro v hv
    rcases List.mem_singleton.mp hv with rfl
    exact hs
  · apply subscribe_of_mem
    intro v hv
    exact (mem_keys_subscribe syms m cb v).mpr (Or.inr hv)

/-- C2 witness: "A" is registered with callback 0; re-subscribing "A"
(together with a fresh "D") under callback 7 keeps callback 0 for "A". -/
theorem subscribe_duplicate_noop_witness :
    ("A" ∈ keys regAB) ∧
    (lookupReg (Streamer.subscribe regAB ["A", "D"] 7) "A" = lookupReg regAB "A" ∧
     Streamer.subscribe regAB ["A"] 7 = regAB ∧
     Streamer.subscribe (Streamer.subscribe regAB ["A", "D"] 5) ["A", "D"] 5
       = Streamer.subscribe regAB ["A", "D"] 5 ∧
     ("D" ∈ keys (Streamer.subscribe regAB ["A", "D"] 7) ↔
       "D" ∈ keys regAB ∨ "D" ∈ ["A", "D"])) :=
  ⟨by decide, subscribe_duplicate_noop regAB ["A", "D"] 5 7 "A" "D" (by decide)⟩

/-- C3: snapshot isolation.  With the registry snapshot `ord` taken at the
start of `run` (a hash-map iteration order of `reg0`'s keys), `run`
delivers exactly one subscription frame, built from that snapshot, and its
content is the same whatever happens afterwards — in particular for any
two continuations `events` and `events'` (which may contain arbitrary
later `subscribe` calls). -/
theorem snapshot_isolation (codec : Codec) (reg0 : Registry) (ord : List Sym)
    (h : Streamer.IterOrder reg0 ord) (events events' : List Event) :
    (Streamer.run codec none reg0 ord events).sent = [serializeSubs ⟨ord⟩] ∧
    (Streamer.run codec none reg0 ord events).sent
      = (Streamer.run codec none reg0 ord events').sent :=
  ⟨rfl, rfl⟩

/-- C3 witness: a later subscribe to "Z" leaves the already-sent frame for
the snapshot of \x7b"A","B"\x7d unchanged. -/
theorem snapshot_isolation_witness :
    Streamer.IterOrder regAB ["A", "B"] ∧
    ((Streamer.run codecW none regAB ["A", "B"] [Event.sub ["Z"] 9]).sent
        = [serializeSubs ⟨["A", "B"]⟩] ∧
     (Streamer.run codecW none regAB ["A", "B"] [Event.sub ["Z"] 9]).sent
        = (Streamer.run codecW none regAB ["A", "B"] []).sent) :=
  ⟨by decide,
   snapshot_isolation codecW regAB ["A", "B"] (by decide) [Event.sub ["Z"] 9] []⟩

/-- C4 counterexample: the claim says a decode failure is "propagated to
the caller as an error result returned from run()".  On the code, the
failing `decode(..).unwrap()` / `parse_from_bytes(..).unwrap()` at line 55
panics: at the concrete input below, `run` ends in the panic outcome,
which is not a returned error value and not `Ok`. -/
theorem decode_failure_counterexample :
    (Streamer.run codecW none [] [] [Event.recvFrame [9]]).result = RunResult.panicked ∧
    RunResult.isErr (Streamer.run codecW none [] [] [Event.recvFrame [9]]).result = false ∧
    (Streamer.run codecW none [] [] [Event.recvFrame [9]]).result ≠ RunResult.ok := by
  decide

/-- C4 amended: for every inbound frame whose body is not valid base64 or
whose decoded bytes do not parse as the expected record, reached after any
error-free prefix, the run loop terminates — but by panicking in the
`.unwrap()` calls, not by returning an error result from `run()`. -/
theorem decode_failure_panics (codec : Codec) (reg0 : Registry) (ord : List Sym)
    (pre : List Event) (d : Bytes) (rest : List Event)
    (hpre : ∀ ev ∈ pre, goodEvent codec ev = true)
    (hd : decodeFrame codec d = none) :
    (Streamer.run codec none reg0 ord (pre ++ Event.recvFrame d :: rest)).result
      = RunResult.panicked := by
  show (Streamer.runLoop codec reg0 (pre ++ Event.recvFrame d :: rest)).2
    = RunResult.panicked
  exact runLoop_decode_none codec pre reg0 d rest hpre hd

/-- C4 witness: one decodable frame, then a frame whose bytes do not
parse; the run panics. -/
theorem decode_failure_panics_witness :
    decodeFrame codecW [9] = none ∧
    (Streamer.run codecW none [] []
        ([Event.recvFrame [0]] ++ Event.recvFrame [9] :: [])).result
      = RunResult.panicked :=
  ⟨by decide,
   decode_failure_panics codecW [] [] [Event.recvFrame [0]] [9] [] (by decide) (by decide)⟩

/-- C5 counterexample: the claim says the subscription frame lists the
symbols in registry insertion order.  The registry is a
`std::collections::HashMap`, whose iteration order is arbitrary: for the
registry built by subscribing "A" then "B" (insertion order ["A", "B"]),
the iteration order ["B", "A"] is an admissible execution, and the frame
it produces lists the symbols in the reverse of insertion order. -/
theorem subscription_order_counterexample :
    applySubs [(["A"], 0), (["B"], 1)] [] = regAB ∧
    keys regAB = ["A", "B"] ∧
    Streamer.IterOrder regAB ["B", "A"] ∧
    (Streamer.run codecW none regAB ["B", "A"] []).sent
      = ["\x7b\"subscribe\":[\"B\",\"A\"]\x7d"] ∧
    (["B", "A"] : List Sym) ≠ ["A", "B"] := by
  decide

/-- C5 amended: the symbols array of the subscription frame contains
exactly the registered symbols as held at the time of the snapshot, each
exactly once (no duplicates, since the registry's keys are unique along
every reachable state), but in the hash map's arbitrary iteration order,
not necessarily insertion order. -/
theorem subscription_list_perm_nodup (codec : Codec) (ops : List (List Sym × CbId))
    (ord : List Sym) (events : List Event)
    (h : Streamer.IterOrder (applySubs ops []) ord) :
    (Streamer.run codec none (applySubs ops []) ord events).sent = [serializeSubs ⟨ord⟩] ∧
    ord.Perm (keys (applySubs ops [])) ∧ ord.Nodup := by
  have hp : ord.Perm (keys (applySubs ops [])) := h
  refine ⟨rfl, hp, ?_⟩
  have hnd : (keys (applySubs ops [])).Nodup := nodup_keys_applySubs ops [] List.nodup_nil
  exact hp.symm.nodup hnd

/-- C5 amended witness: for the registry reached by subscribing "A" then
"B", the admissible order ["B", "A"] is a duplicate-free permutation of
the keys and is what the frame carries. -/
theorem subscription_list_perm_nodup_witness :
    Streamer.IterOrder (applySubs [(["A"], 0), (["B"], 1)] []) ["B", "A"] ∧
    ((Streamer.run codecW none (applySubs [(["A"], 0), (["B"], 1)] []) ["B", "A"] []).sent
        = [serializeSubs ⟨["B", "A"]⟩] ∧
     (["B", "A"] : List Sym).Perm (keys (applySubs [(["A"], 0), (["B"], 1)] [])) ∧
     (["B", "A"] : List Sym).Nodup) :=
  ⟨by decide,
   subscription_list_perm_nodup codecW [(["A"], 0), (["B"], 1)] ["B", "A"] [] (by decide)⟩

/-- C6: quote construction.  Every dispatched invocation carries a Quote
built by the `Quote` literal of lines 59-66 from a record decoded out of
some received frame: its `symbol` is the record's `id`, `quote_type` and
`session` are the `from_pd` mappings of the raw `quoteType` and
`marketHours` codes, `timestamp` is the `time` field as epoch seconds in
UTC, and `price` and `volume` are the record's `price` and `dayVolume`. -/
theorem quote_construction (codec : Codec) (reg : Registry) (events : List Event)
    (cb : CbId) (q : Quote) (h : (cb, q) ∈ (Streamer.runLoop codec reg events).1) :
    ∃ x : PricingData,
      (∃ d, Event.recvFrame d ∈ events ∧ decodeFrame codec d = some x) ∧
      q = mkQuote x ∧ q.symbol = x.id ∧
      q.quote_type = QuoteType.from_pd x.quoteType ∧
      q.timestamp = fromTimestampUtc x.time ∧
      q.session = TradingSession.from_pd x.marketHours ∧
      q.price = x.price ∧ q.volume = x.dayVolume := by
  rcases runLoop_mem_trace codec events reg cb q h with ⟨x, hprov, hq⟩
  subst hq
  exact ⟨x, hprov, rfl, rfl, rfl, rfl, rfl, rfl, rfl⟩

/-- C6 witness: the invocation dispatched for the decoded record `pdA` is
in the trace, and the theorem yields its construction from `pdA`'s
fields. -/
theorem quote_construction_witness :
    ((0, mkQuote pdA) ∈ (Streamer.runLoop codecW [("A", 0)] [Event.recvFrame [0]]).1) ∧
    (∃ x : PricingData,
      (∃ d, Event.recvFrame d ∈ [Event.recvFrame [0]] ∧ decodeFrame codecW d = some x) ∧
      mkQuote pdA = mkQuote x ∧ (mkQuote pdA).symbol = x.id ∧
      (mkQuote pdA).quote_type = QuoteType.from_pd x.quoteType ∧
      (mkQuote pdA).timestamp = fromTimestampUtc x.time ∧
      (mkQuote pdA).session = TradingSession.from_pd x.marketHours ∧
      (mkQuote pdA).price = x.price ∧ (mkQuote pdA).volume = x.dayVolume) :=
  ⟨by decide,
   quote_construction codecW [("A", 0)] [Event.recvFrame [0]] 0 (mkQuote pdA) (by decide)⟩

/-- C7: terminal behaviour of `run()`.  If the stream runs dry after only
non-failing steps, the loop exits and `run` returns success; if a receive
yields a transport error after an error-free prefix, the loop terminates
with that error returned from `run`. -/
theorem run_terminal_behaviour (codec : Codec) (reg0 : Registry) (ord : List Sym)
    (events pre rest : List Event) (e : Nat)
    (hgood : ∀ ev ∈ events, goodEvent codec ev = true)
    (hpre : ∀ ev ∈ pre, goodEvent codec ev = true) :
    (Streamer.run codec none reg0 ord events).result = RunResult.ok ∧
    (Streamer.run codec none reg0 ord (pre ++ Event.recvErr e :: rest)).result
      = RunResult.err e := by
  constructor
  · show (Streamer.runLoop codec reg0 events).2 = RunResult.ok
    exact runLoop_good_ok codec events reg0 hgood
  · show (Streamer.runLoop codec reg0 (pre ++ Event.recvErr e :: rest)).2 = RunResult.err e
    exact runLoop_recvErr codec pre reg0 e rest hpre

/-- C7 witness: a stream that ends after one good frame returns `Ok`; a
transport error 7 after one good frame is returned as the error. -/
theorem run_terminal_behaviour_witness :
    (Streamer.run codecW none [] [] [Event.recvFrame [0]]).result = RunResult.ok ∧
    (Streamer.run codecW none [] []
        ([Event.recvFrame [0]] ++ Event.recvErr 7 :: [])).result = RunResult.err 7 :=
  run_terminal_behaviour codecW [] [] [Event.recvFrame [0]] [Event.recvFrame [0]] [] 7
    (by decide) (by decide)

/-- C8: outbound subscription message format.  `run` sends exactly one
text frame: the serde_json serialization of `Subs`, a JSON object with
the single key "subscribe" mapped to the array of subscribed symbol
strings. -/
theorem subscription_frame_format (codec : Codec) (reg0 : Registry) (ord : List Sym)
    (events : List Event) (h : Streamer.IterOrder reg0 ord) :
    (Streamer.run codec none reg0 ord events).sent = [serializeSubs ⟨ord⟩] :=
  rfl

/-- C8 witness: for subscribed symbols "AAPL" and "MSFT" the single sent
frame is exactly the spec's example text. -/
theorem subscription_frame_format_witness :
    Streamer.IterOrder [("AAPL", 0), ("MSFT", 1)] ["AAPL", "MSFT"] ∧
    (Streamer.run codecW none [("AAPL", 0), ("MSFT", 1)] ["AAPL", "MSFT"] []).sent
      = ["\x7b\"subscribe\":[\"AAPL\",\"MSFT\"]\x7d"] :=
  ⟨by decide,
   (subscription_frame_format codecW [("AAPL", 0), ("MSFT", 1)] ["AAPL", "MSFT"] []
      (by decide)).trans (by decide)⟩

/-- C9: registry monotonicity.  A symbol once present stays present under
any further `subscribe` call, any interleaving of run-loop steps and
concurrent subscribes, and any sequence of subscribe calls: no operation
removes entries. -/
theorem registry_monotone (m : Registry) (events : List Event) (syms : List Sym)
    (cb : CbId) (ops : List (List Sym × CbId)) (s : Sym) (hs : s ∈ keys m) :
    s ∈ keys (Streamer.subscribe m syms cb) ∧
    s ∈ keys (regDuring m events) ∧
    s ∈ keys (applySubs ops m) :=
  ⟨(mem_keys_subscribe syms m cb s).mpr (Or.inl hs),
   mem_keys_regDuring events m s hs,
   mem_keys_applySubs ops m s hs⟩

/-- C9 witness: "A" stays registered across a further subscribe, an
interleaved run segment, and a batch of subscribe calls. -/
theorem registry_monotone_witness :
    ("A" ∈ keys regAB) ∧
    ("A" ∈ keys (Streamer.subscribe regAB ["Q"] 5) ∧
     "A" ∈ keys (regDuring regAB [Event.sub ["Z"] 9, Event.recvFrame [0]]) ∧
     "A" ∈ keys (applySubs [(["R"], 3)] regAB)) :=
  ⟨by decide,
   registry_monotone regAB [Event.sub ["Z"] 9, Event.recvFrame [0]] ["Q"] 5
     [(["R"], 3)] "A" (by decide)⟩

/-- C10: empty-registry edge case.  With no symbols subscribed, the only
admissible snapshot is empty, so `run` still sends the one subscription
frame, with content `\x7b"subscribe":[]\x7d`, and then the listening loop
proceeds normally (here: over non-failing steps, to a successful
return). -/
theorem run_empty_registry (codec : Codec) (ord : List Sym) (events : List Event)
    (h : Streamer.IterOrder [] ord)
    (hgood : ∀ ev ∈ events, goodEvent codec ev = true) :
    (Streamer.run codec none [] ord events).sent = ["\x7b\"subscribe\":[]\x7d"] ∧
    (Streamer.run codec none [] ord events).result = RunResult.ok := by
  have h0 : ord = [] := List.Perm.eq_nil h
  subst h0
  constructor
  · show [serializeSubs ⟨[]⟩] = _
    decide
  · show (Streamer.runLoop codec [] events).2 = RunResult.ok
    exact runLoop_good_ok codec events [] hgood

/-- C10 witness: an empty registry, one decodable inbound frame. -/
theorem run_empty_registry_witness :
    Streamer.IterOrder [] [] ∧
    ((Streamer.run codecW none [] [] [Event.recvFrame [0]]).sent
        = ["\x7b\"subscribe\":[]\x7d"] ∧
     (Streamer.run codecW none [] [] [Event.recvFrame [0]]).result = RunResult.ok) :=
  ⟨by decide, run_empty_registry codecW [] [Event.recvFrame [0]] (by decide) (by decide)⟩

end YahooRt
